import Mathlib

/-!
Verification development for the soccerstan pipeline (soccerstan.py).

The file gives a shallow embedding of the logic components of the
pipeline and proves the documented properties about them:

  - stan_map: categorical encoding of team names (np.unique of a string
    vector, then ids 1..N over the sorted distinct items);
  - read_data: normalization of raw match tables (drop the rows whose
    home-goal cell is null, build the team map from the remaining rows,
    attach ids, coerce goal counts to integers);
  - fit_model (caching part): the use_cache branch around joblib.load,
    stan.build and joblib.dump, embedded as explicit state passing over
    the one cache location the call touches;
  - fit_model (reindexing part): relabelling the columns of a team
    parameter table through the inverse of the team map.
-/

namespace Soccerstan

/-- The lexicographic order on strings decided through the character
lists, so that the kernel can evaluate comparisons on concrete inputs. -/
instance decLeStr : DecidableRel ((· ≤ ·) : String → String → Prop) :=
  fun a b => decidable_of_iff (a.data ≤ b.data) String.le_iff_toList_le.symm

/-- Lexicographically sorted list of the distinct elements of a list of
strings: the behavior of np.unique on a one-dimensional vector. -/
def np_unique (l : List String) : List String :=
  l.dedup.insertionSort (· ≤ ·)

/-- Pair each item of a list with consecutive integers starting at k, the
pairs being (item, id): python enumerate(items, start=k) read into a dict
comprehension of the form item maps to id. -/
def numberFrom (k : Nat) : List String → List (String × Nat)
  | [] => []
  | x :: xs => (x, k) :: numberFrom (k + 1) xs

/-- stan_map(vector) of soccerstan.py: a map of vector items to ids, the
ids 1..N given to the sorted distinct items in order. The dict is embedded
as an association list; its key list is duplicate-free. -/
def stan_map (vector : List String) : List (String × Nat) :=
  numberFrom 1 (np_unique vector)

/-- Dictionary access d[x] on an association list: the value stored under
key x, none when the key is absent (a KeyError in python). Every key list
built in this development is duplicate-free, so taking the first match
agrees with python dict semantics. -/
def mapLookup {α β : Type} [DecidableEq α] (x : α) : List (α × β) → Option β
  | [] => none
  | p :: m => if p.1 = x then some p.2 else mapLookup x m

/-- One cell of a goal-count column as pandas hands it to the pipeline:
null (an unplayed fixture), a numeric value, or leftover text. -/
inductive RawCell where
  | missing : RawCell
  | numeric (n : Int) : RawCell
  | text (s : String) : RawCell
deriving DecidableEq

/-- pd.isnull on one cell. -/
def RawCell.isnull : RawCell → Bool
  | .missing => true
  | _ => false

/-- Digits of a decimal literal read into a number; none when the list is
empty or holds a non-digit character. -/
def digitsToNat : List Char → Option Nat
  | [] => none
  | ds => ds.foldl
      (fun acc c =>
        match acc with
        | none => none
        | some n => if c.isDigit then some (n * 10 + (c.toNat - 48)) else none)
      (some 0)

/-- int(s) on a string in python: an optional sign followed by decimal
digits; anything else raises ValueError, embedded as none. -/
def parseInt (s : String) : Option Int :=
  match s.data with
  | '-' :: ds => (digitsToNat ds).map (fun n => -(n : Int))
  | '+' :: ds => (digitsToNat ds).map (fun n => (n : Int))
  | ds => (digitsToNat ds).map (fun n => (n : Int))

/-- int(c) on one cell: a numeric cell gives its integral value, text is
parsed as an integer, and null or non-numeric text raises ValueError,
embedded as none. The spec names this failure MalformedScoreError. -/
def coerceGoal : RawCell → Option Int
  | .missing => none
  | .numeric n => some n
  | .text s => parseInt s

/-- One row of the raw table, after the column renames in read_data. -/
structure RawRow where
  home_team : String
  away_team : String
  home_goals : RawCell
  away_goals : RawCell
deriving DecidableEq

/-- One normalized match record: teams, integral goal counts and the
attached integer team ids. -/
structure MatchRecord where
  home_team : String
  away_team : String
  home_goals : Int
  away_goals : Int
  home_team_id : Nat
  away_team_id : Nat
deriving DecidableEq

/-- The error read_data can report: a goal value that int() rejects. -/
inductive SoccerError where
  | malformedScore : SoccerError
deriving DecidableEq

/-- The filter step of read_data: keep the rows whose home-goal cell is
not null (the loc line commented Remove future games). -/
def playedRows (table : List RawRow) : List RawRow :=
  table.filter (fun r => !r.home_goals.isnull)

/-- pd.concat of the home_team and away_team columns of a row list. -/
def teamColumns (rows : List RawRow) : List String :=
  rows.map RawRow.home_team ++ rows.map RawRow.away_team

/-- The team map read_data builds: stan_map over the concatenated team
columns of the rows that survive the filter (the filter runs first in the
source, so unplayed rows contribute no labels). -/
def teamMapOf (table : List RawRow) : List (String × Nat) :=
  stan_map (teamColumns (playedRows table))

/-- One row turned into a normalized record: ids attached through the
team map (Series.replace; the lookup cannot miss because the map was
built from these very rows, so the getD default is never taken), goal
cells coerced with int(). Fails when a coercion fails. -/
def toRecord (team_map : List (String × Nat)) (r : RawRow) : Option MatchRecord :=
  match coerceGoal r.home_goals, coerceGoal r.away_goals with
  | some hg, some ag =>
      some { home_team := r.home_team, away_team := r.away_team,
             home_goals := hg, away_goals := ag,
             home_team_id := (mapLookup r.home_team team_map).getD 0,
             away_team_id := (mapLookup r.away_team team_map).getD 0 }
  | _, _ => none

/-- The two coercion loops of read_data over the retained rows: all rows
in order, failing as soon as any goal cell cannot be coerced. -/
def toRecords (team_map : List (String × Nat)) : List RawRow → Option (List MatchRecord)
  | [] => some []
  | r :: rest =>
      match toRecord team_map r, toRecords team_map rest with
      | some q, some qs => some (q :: qs)
      | _, _ => none

/-- How a read_data call ends: the records and the team map, or an error
raised on the way. -/
inductive ReadResult where
  | ok (records : List MatchRecord) (team_map : List (String × Nat)) : ReadResult
  | error (e : SoccerError) : ReadResult
deriving DecidableEq

/-- read_data of soccerstan.py over an already parsed table: filter out
the unplayed rows, build the team map from the survivors, attach ids and
coerce the goal counts, returning the records and the map. -/
def read_data (table : List RawRow) : ReadResult :=
  match toRecords (teamMapOf table) (playedRows table) with
  | some recs => .ok recs (teamMapOf table)
  | none => .error .malformedScore

/-! ## The caching branch of fit_model -/

/-- The one cache location a fit_model call touches, as the file system
holds it: no file (joblib.load raises FileNotFoundError), an unreadable
file (joblib.load raises some other error), or a stored artifact. -/
inductive CacheCell where
  | absent : CacheCell
  | corrupt : CacheCell
  | stored (artifact : Nat) : CacheCell
deriving DecidableEq

/-- What stan.build would do for the given program and data: succeed with
a compiled artifact, or raise a compilation error. Artifacts and errors
are opaque and carried as numbers. -/
inductive CompileOutcome where
  | ok (artifact : Nat) : CompileOutcome
  | fail (e : Nat) : CompileOutcome
deriving DecidableEq

/-- How a fit_model call ends, as far as model building goes: a compiled
model in hand, a compilation error propagated unmodified, or the error a
corrupt cache read raises (CacheCorruptionError in the spec). -/
inductive FitResult where
  | ok (artifact : Nat) : FitResult
  | compileErr (e : Nat) : FitResult
  | cacheCorruption : FitResult
deriving DecidableEq

/-- The observable effects of the model-building part of one fit_model
call: the result, how many compiles, cache loads and cache stores ran,
the cache path touched (none when use_cache is false), and the state the
cache location is left in. -/
structure FitEffects where
  result : FitResult
  compiles : Nat
  loads : Nat
  stores : Nat
  path : Option String
  cache : CacheCell
deriving DecidableEq

/-- The cache location of fit_model: os.path.join of the script directory
with ../cache/{name}.pkl, a function of the model name alone. -/
def cache_file (name : String) : String :=
  "../cache/" ++ name ++ ".pkl"

/-- The model-building block of fit_model. With use_cache, try
joblib.load on cache_file name: a stored artifact is returned as is; a
FileNotFoundError triggers stan.build and, on success, joblib.dump of the
new artifact; any other load failure propagates and nothing is compiled.
A compilation error propagates out of the except block before the dump
line, so nothing is stored. Without use_cache, stan.build runs and the
cache is never touched. -/
def fit_model_build (use_cache : Bool) (name : String) (cell : CacheCell)
    (co : CompileOutcome) : FitEffects :=
  if use_cache then
    match cell with
    | .stored a =>
        { result := .ok a, compiles := 0, loads := 1, stores := 0,
          path := some (cache_file name), cache := .stored a }
    | .corrupt =>
        { result := .cacheCorruption, compiles := 0, loads := 1, stores := 0,
          path := some (cache_file name), cache := .corrupt }
    | .absent =>
        match co with
        | .ok a =>
            { result := .ok a, compiles := 1, loads := 1, stores := 1,
              path := some (cache_file name), cache := .stored a }
        | .fail e =>
            { result := .compileErr e, compiles := 1, loads := 1, stores := 0,
              path := some (cache_file name), cache := .absent }
  else
    match co with
    | .ok a =>
        { result := .ok a, compiles := 1, loads := 0, stores := 0,
          path := none, cache := cell }
    | .fail e =>
        { result := .compileErr e, compiles := 1, loads := 0, stores := 0,
          path := none, cache := cell }

/-- k successive fit_model calls with use_cache true, the same model name
and the same template, threading the cache location state from call to
call; the list of the effects of each call in order. -/
def buildTrace (name : String) (co : CompileOutcome) : Nat → CacheCell → List FitEffects
  | 0, _ => []
  | Nat.succ k, cell =>
      let e := fit_model_build true name cell co
      e :: buildTrace name co k e.cache

/-! ## The reindexing loop of fit_model -/

/-- reverse_map of fit_model: the dict comprehension swapping keys and
values of the team map. The values of the team map are duplicate-free, so
the association list with pairs swapped is again a map. -/
def reverse_map (team_map : List (String × Nat)) : List (Nat × String) :=
  team_map.map (fun p => (p.2, p.1))

/-- The column relabelling of one team parameter table of width w: the
dataframe columns are 0..w-1 and column id gets the label
reverse_map[id + 1]; a missing id would be a KeyError, embedded as
none. -/
def reindexColumns (team_map : List (String × Nat)) (w : Nat) : List (Option String) :=
  (List.range w).map (fun id_ => mapLookup (id_ + 1) (reverse_map team_map))

end Soccerstan

namespace Soccerstan

/-! ## Lemmas about np_unique -/

theorem np_unique_perm_dedup (l : List String) : List.Perm (np_unique l) l.dedup :=
  List.perm_insertionSort _ _

theorem np_unique_sorted (l : List String) : (np_unique l).Sorted (· ≤ ·) :=
  List.sorted_insertionSort _ _

theorem np_unique_nodup (l : List String) : (np_unique l).Nodup :=
  (np_unique_perm_dedup l).nodup_iff.mpr (List.nodup_dedup l)

theorem mem_np_unique {x : String} {l : List String} : x ∈ np_unique l ↔ x ∈ l :=
  ((np_unique_perm_dedup l).mem_iff).trans List.mem_dedup

theorem np_unique_sorted_lt (l : List String) : (np_unique l).Sorted (· < ·) := by
  have hs := np_unique_sorted l
  have hn := np_unique_nodup l
  unfold List.Sorted at hs ⊢
  unfold List.Nodup at hn
  exact (hs.and hn).imp (fun h => lt_of_le_of_ne h.1 h.2)

theorem np_unique_eq_of_toFinset_eq {l m : List String}
    (h : l.toFinset = m.toFinset) : np_unique l = np_unique m := by
  have hp : List.Perm l.dedup m.dedup := List.toFinset_eq_iff_perm_dedup.mp h
  have hperm : List.Perm (np_unique l) (np_unique m) :=
    ((np_unique_perm_dedup l).trans hp).trans (np_unique_perm_dedup m).symm
  exact List.eq_of_perm_of_sorted hperm (np_unique_sorted l) (np_unique_sorted m)

theorem np_unique_length_eq_card (l : List String) :
    (np_unique l).length = l.toFinset.card := by
  rw [(np_unique_perm_dedup l).length_eq, List.card_toFinset]

/-! ## Lemmas about numberFrom and stan_map -/

theorem numberFrom_map_fst (k : Nat) (l : List String) :
    (numberFrom k l).map Prod.fst = l := by
  induction l generalizing k with
  | nil => rfl
  | cons x xs ih => simp [numberFrom, ih]

theorem numberFrom_map_snd (k : Nat) (l : List String) :
    (numberFrom k l).map Prod.snd = List.range' k l.length := by
  induction l generalizing k with
  | nil => rfl
  | cons x xs ih => simp [numberFrom, ih, List.range'_succ]

theorem numberFrom_length (k : Nat) (l : List String) :
    (numberFrom k l).length = l.length := by
  induction l generalizing k with
  | nil => rfl
  | cons x xs ih => simp [numberFrom, ih]

theorem numberFrom_getElem (k : Nat) (l : List String) (i : Nat)
    (hi : i < l.length) :
    (numberFrom k l).get ⟨i, by rw [numberFrom_length]; exact hi⟩ = (l[i], k + i) := by
  simp only [List.get_eq_getElem]
  induction l generalizing k i with
  | nil => exact absurd hi (Nat.not_lt_zero i)
  | cons x xs ih =>
      cases i with
      | zero => simp [numberFrom]
      | succ j =>
          have hj : j < xs.length := Nat.lt_of_succ_lt_succ hi
          simp only [numberFrom, List.getElem_cons_succ, List.getElem_cons_succ]
          rw [ih (k + 1) j hj]
          simp [Nat.add_comm, Nat.add_assoc, Nat.add_left_comm]

theorem mem_numberFrom {p : String × Nat} {k : Nat} {l : List String} :
    p ∈ numberFrom k l ↔ ∃ i, ∃ hi : i < l.length, p = (l[i], k + i) := by
  induction l generalizing k with
  | nil => simp [numberFrom]
  | cons x xs ih =>
      simp only [numberFrom, List.mem_cons, ih]
      constructor
      · rintro (rfl | ⟨i, hi, rfl⟩)
        · exact ⟨0, Nat.succ_pos _, by simp⟩
        · exact ⟨i + 1, Nat.succ_lt_succ hi, by
            simp [Nat.add_comm, Nat.add_assoc, Nat.add_left_comm]⟩
      · rintro ⟨i, hi, rfl⟩
        cases i with
        | zero => left; simp
        | succ j =>
            right
            refine ⟨j, Nat.lt_of_succ_lt_succ hi, ?_⟩
            simp [Nat.add_comm, Nat.add_assoc, Nat.add_left_comm]

theorem stan_map_map_fst (l : List String) :
    (stan_map l).map Prod.fst = np_unique l :=
  numberFrom_map_fst 1 (np_unique l)

theorem stan_map_map_snd (l : List String) :
    (stan_map l).map Prod.snd = List.range' 1 (np_unique l).length :=
  numberFrom_map_snd 1 (np_unique l)

theorem stan_map_keys_nodup (l : List String) :
    ((stan_map l).map Prod.fst).Nodup := by
  rw [stan_map_map_fst]
  exact np_unique_nodup l

theorem stan_map_length (l : List String) :
    (stan_map l).length = (np_unique l).length :=
  numberFrom_length 1 (np_unique l)

/-! ## Lemmas about mapLookup -/

theorem mapLookup_isSome_iff {α β : Type} [DecidableEq α] {x : α}
    {m : List (α × β)} : (mapLookup x m).isSome ↔ x ∈ m.map Prod.fst := by
  induction m with
  | nil => simp [mapLookup]
  | cons p m ih =>
      by_cases h : p.1 = x
      · simp [mapLookup, h]
      · simp [mapLookup, h, ih, Ne.symm h]

theorem mapLookup_eq_none_iff {α β : Type} [DecidableEq α] {x : α}
    {m : List (α × β)} : mapLookup x m = none ↔ x ∉ m.map Prod.fst := by
  rw [← mapLookup_isSome_iff, Option.not_isSome_iff_eq_none]

theorem mem_of_mapLookup {α β : Type} [DecidableEq α] {x : α} {v : β}
    {m : List (α × β)} (h : mapLookup x m = some v) : (x, v) ∈ m := by
  induction m with
  | nil => simp [mapLookup] at h
  | cons p m ih =>
      obtain ⟨a, b⟩ := p
      by_cases hx : a = x
      · simp only [mapLookup, if_pos hx, Option.some.injEq] at h
        subst hx
        subst h
        exact List.mem_cons_self _ _
      · simp only [mapLookup, if_neg hx] at h
        exact List.mem_cons_of_mem _ (ih h)

theorem mapLookup_of_mem {α β : Type} [DecidableEq α] {x : α} {v : β}
    {m : List (α × β)} (hn : (m.map Prod.fst).Nodup) (h : (x, v) ∈ m) :
    mapLookup x m = some v := by
  induction m with
  | nil => simp at h
  | cons p m ih =>
      simp only [List.map_cons, List.nodup_cons] at hn
      rcases List.mem_cons.mp h with h1 | h1
      · rw [← h1]
        simp [mapLookup]
      · have hne : p.1 ≠ x := by
          intro he
          exact hn.1 (he ▸ (List.mem_map.mpr ⟨(x, v), h1, rfl⟩))
        simp only [mapLookup, if_neg hne]
        exact ih hn.2 h1

theorem mapLookup_mem_values {α β : Type} [DecidableEq α] {x : α} {v : β}
    {m : List (α × β)} (h : mapLookup x m = some v) : v ∈ m.map Prod.snd :=
  List.mem_map.mpr ⟨(x, v), mem_of_mapLookup h, rfl⟩

/-! ## Lookup characterization of stan_map -/

theorem stan_map_getElem (l : List String) (i : Nat)
    (hi : i < (np_unique l).length) :
    (stan_map l).get ⟨i, by rw [stan_map_length]; exact hi⟩
      = ((np_unique l)[i], i + 1) := by
  have h := numberFrom_getElem 1 (np_unique l) i hi
  rw [Nat.add_comm 1 i] at h
  exact h

theorem stan_map_lookup_getElem (l : List String) (i : Nat)
    (hi : i < (np_unique l).length) :
    mapLookup ((np_unique l)[i]) (stan_map l) = some (i + 1) := by
  apply mapLookup_of_mem (stan_map_keys_nodup l)
  have h := stan_map_getElem l i hi
  rw [← h]
  exact List.get_mem _ _ _

theorem stan_map_lookup_eq_some_iff {l : List String} {x : String} {n : Nat} :
    mapLookup x (stan_map l) = some n ↔
      ∃ i, ∃ hi : i < (np_unique l).length, (np_unique l)[i] = x ∧ n = i + 1 := by
  constructor
  · intro h
    have hm : (x, n) ∈ stan_map l := mem_of_mapLookup h
    rw [stan_map, mem_numberFrom] at hm
    obtain ⟨i, hi, he⟩ := hm
    rw [Prod.mk.injEq] at he
    exact ⟨i, hi, he.1.symm, by omega⟩
  · rintro ⟨i, hi, rfl, rfl⟩
    exact stan_map_lookup_getElem l i hi

/-! ## The normalization steps -/

theorem toRecord_eq_none_iff {tm : List (String × Nat)} {r : RawRow} :
    toRecord tm r = none ↔
      coerceGoal r.home_goals = none ∨ coerceGoal r.away_goals = none := by
  unfold toRecord
  cases hh : coerceGoal r.home_goals <;> cases ha : coerceGoal r.away_goals <;> simp

theorem toRecord_some_spec {tm : List (String × Nat)} {r : RawRow}
    {q : MatchRecord} (h : toRecord tm r = some q) :
    q.home_team = r.home_team ∧ q.away_team = r.away_team ∧
    coerceGoal r.home_goals = some q.home_goals ∧
    coerceGoal r.away_goals = some q.away_goals ∧
    q.home_team_id = (mapLookup r.home_team tm).getD 0 ∧
    q.away_team_id = (mapLookup r.away_team tm).getD 0 := by
  unfold toRecord at h
  cases hh : coerceGoal r.home_goals with
  | none => rw [hh] at h; cases h
  | some hg =>
      cases ha : coerceGoal r.away_goals with
      | none => rw [hh, ha] at h; cases h
      | some ag =>
          rw [hh, ha] at h
          rw [Option.some.injEq] at h
          subst h
          exact ⟨rfl, rfl, rfl, rfl, rfl, rfl⟩

theorem toRecords_eq_none_iff {tm : List (String × Nat)} {rows : List RawRow} :
    toRecords tm rows = none ↔ ∃ r ∈ rows, toRecord tm r = none := by
  induction rows with
  | nil => simp [toRecords]
  | cons r rest ih =>
      cases h1 : toRecord tm r with
      | none => simp [toRecords, h1]
      | some q =>
          cases h2 : toRecords tm rest with
          | none =>
              simp only [toRecords, h1, h2]
              constructor
              · intro _
                obtain ⟨r2, hr2, hn⟩ := ih.mp h2
                exact ⟨r2, List.mem_cons_of_mem _ hr2, hn⟩
              · intro _; trivial
          | some qs =>
              simp only [toRecords, h1, h2]
              constructor
              · intro h; cases h
              · rintro ⟨r2, hr2, hn⟩
                rcases List.mem_cons.mp hr2 with h | hmem
                · rw [h] at hn; rw [h1] at hn; cases hn
                · have hc : toRecords tm rest = none := ih.mpr ⟨r2, hmem, hn⟩
                  rw [h2] at hc; cases hc

theorem toRecords_some_length {tm : List (String × Nat)} {rows : List RawRow}
    {recs : List MatchRecord} (h : toRecords tm rows = some recs) :
    recs.length = rows.length := by
  induction rows generalizing recs with
  | nil =>
      unfold toRecords at h
      rw [Option.some.injEq] at h
      subst h; rfl
  | cons r rest ih =>
      unfold toRecords at h
      cases h1 : toRecord tm r with
      | none => rw [h1] at h; cases h
      | some q =>
          cases h2 : toRecords tm rest with
          | none => rw [h1, h2] at h; cases h
          | some qs =>
              rw [h1, h2, Option.some.injEq] at h
              subst h
              simp [ih h2]

theorem toRecords_some_getElem {tm : List (String × Nat)} {rows : List RawRow}
    {recs : List MatchRecord} (h : toRecords tm rows = some recs)
    (i : Nat) (hi : i < rows.length) :
    toRecord tm rows[i] =
      some (recs.get ⟨i, by rw [toRecords_some_length h]; exact hi⟩) := by
  simp only [List.get_eq_getElem]
  induction rows generalizing recs i with
  | nil => exact absurd hi (Nat.not_lt_zero i)
  | cons r rest ih =>
      unfold toRecords at h
      cases h1 : toRecord tm r with
      | none => rw [h1] at h; cases h
      | some q =>
          cases h2 : toRecords tm rest with
          | none => rw [h1, h2] at h; cases h
          | some qs =>
              rw [h1, h2, Option.some.injEq] at h
              subst h
              cases i with
              | zero => simpa using h1
              | succ j => simpa using ih h2 j (Nat.lt_of_succ_lt_succ hi)

theorem lookup_teamMapOf_isSome {table : List RawRow} {x : String} :
    (mapLookup x (teamMapOf table)).isSome ↔ x ∈ teamColumns (playedRows table) := by
  rw [teamMapOf, mapLookup_isSome_iff, stan_map_map_fst]
  exact mem_np_unique

theorem read_data_ok_iff {table : List RawRow} {recs : List MatchRecord}
    {tm : List (String × Nat)} :
    read_data table = .ok recs tm ↔
      tm = teamMapOf table ∧
        toRecords (teamMapOf table) (playedRows table) = some recs := by
  unfold read_data
  cases h : toRecords (teamMapOf table) (playedRows table) with
  | none =>
      constructor
      · intro hc; cases hc
      · rintro ⟨-, hc⟩; cases hc
  | some qs =>
      constructor
      · intro hc
        cases hc
        exact ⟨rfl, rfl⟩
      · rintro ⟨rfl, hc⟩
        rw [Option.some.injEq] at hc
        rw [hc]

theorem read_data_error_of_bad_row {table : List RawRow}
    (h : ∃ r ∈ playedRows table, toRecord (teamMapOf table) r = none) :
    read_data table = .error .malformedScore := by
  unfold read_data
  rw [toRecords_eq_none_iff.mpr h]

theorem played_home_team_mem {table : List RawRow} {r : RawRow}
    (hr : r ∈ playedRows table) :
    r.home_team ∈ teamColumns (playedRows table) :=
  List.mem_append_left _ (List.mem_map.mpr ⟨r, hr, rfl⟩)

theorem played_away_team_mem {table : List RawRow} {r : RawRow}
    (hr : r ∈ playedRows table) :
    r.away_team ∈ teamColumns (playedRows table) :=
  List.mem_append_right _ (List.mem_map.mpr ⟨r, hr, rfl⟩)

/-! ## Reverse map and reindexing -/

theorem reverse_map_map_fst (m : List (String × Nat)) :
    (reverse_map m).map Prod.fst = m.map Prod.snd := by
  simp [reverse_map, List.map_map]

theorem reverse_map_stan_keys_nodup (l : List String) :
    ((reverse_map (stan_map l)).map Prod.fst).Nodup := by
  rw [reverse_map_map_fst, stan_map_map_snd]
  exact List.nodup_range' _ _

theorem reverse_map_stan_lookup (l : List String) (i : Nat)
    (hi : i < (np_unique l).length) :
    mapLookup (i + 1) (reverse_map (stan_map l)) = some ((np_unique l)[i]) := by
  apply mapLookup_of_mem (reverse_map_stan_keys_nodup l)
  apply List.mem_map.mpr
  refine ⟨((np_unique l)[i], i + 1), ?_, rfl⟩
  have h := stan_map_getElem l i hi
  rw [← h]
  exact List.get_mem _ _ _

theorem reindexColumns_stan_map (l : List String) :
    reindexColumns (stan_map l) (stan_map l).length = (np_unique l).map some := by
  apply List.ext_getElem
  · simp [reindexColumns, stan_map_length]
  · intro i h1 h2
    have hi : i < (np_unique l).length := by
      simpa [reindexColumns, stan_map_length] using h1
    simp only [reindexColumns, List.getElem_map, List.getElem_range]
    rw [reverse_map_stan_lookup l i hi]

/-! ## The cache trace -/

/-- The effect of one warm-cache call: a load and nothing else. -/
def warmEffect (name : String) (a : Nat) : FitEffects :=
  { result := .ok a, compiles := 0, loads := 1, stores := 0,
    path := some (cache_file name), cache := .stored a }

theorem buildTrace_warm (name : String) (a : Nat) (k : Nat) :
    buildTrace name (.ok a) k (.stored a) = List.replicate k (warmEffect name a) := by
  induction k with
  | zero => rfl
  | succ j ih =>
      rw [List.replicate_succ, ← ih]
      rfl

/-! ## Claims -/

/-- Claim C1, counterexample: in the source the row filter runs before
the team map is built, so a label that appears only in an unplayed row
(here C, home side of a row with a null home-goal cell) gets no
identifier, although the claim promises it one. -/
theorem teamMap_misses_unplayed_only_label :
    "C" ∈ teamColumns
        [⟨"A", "B", .numeric 2, .numeric 1⟩, ⟨"C", "D", .missing, .missing⟩]
  ∧ mapLookup "C"
      (teamMapOf
        [⟨"A", "B", .numeric 2, .numeric 1⟩, ⟨"C", "D", .missing, .missing⟩]) = none
  ∧ teamMapOf [⟨"A", "B", .numeric 2, .numeric 1⟩, ⟨"C", "D", .missing, .missing⟩] =
      [("A", 1), ("B", 2)] := by decide

/-- Claim C1, amended: the label set of the Encoding Map is discovered
from the union of the home and away columns of the played rows only; a
label receives an identifier exactly when it occurs in the home or away
column of a row whose home-goal cell is not null. -/
theorem teamMap_built_from_played_rows (table : List RawRow) (x : String) :
    (mapLookup x (teamMapOf table)).isSome ↔ x ∈ teamColumns (playedRows table) :=
  lookup_teamMapOf_isSome

/-- Claim C2: stan_map is a bijection from the distinct labels of the
input onto 1..N in lexicographically sorted label order, depends only on
the set of distinct labels, and maps the empty sequence to the empty
mapping. -/
theorem stan_map_sorted_bijection (L : List String) :
    ((stan_map L).map Prod.fst = np_unique L)
  ∧ (np_unique L).Sorted (· < ·)
  ∧ (np_unique L).length = L.toFinset.card
  ∧ ((stan_map L).map Prod.snd = List.range' 1 (np_unique L).length)
  ∧ (∀ x ∈ L, ∃ n, mapLookup x (stan_map L) = some n
        ∧ 1 ≤ n ∧ n ≤ (np_unique L).length)
  ∧ (∀ x n, mapLookup x (stan_map L) = some n → x ∈ L)
  ∧ (∀ x y n, mapLookup x (stan_map L) = some n →
        mapLookup y (stan_map L) = some n → x = y)
  ∧ (∀ n, 1 ≤ n → n ≤ (np_unique L).length →
        ∃ x ∈ L, mapLookup x (stan_map L) = some n)
  ∧ (∀ M : List String, L.toFinset = M.toFinset → stan_map L = stan_map M)
  ∧ stan_map ([] : List String) = [] := by
  refine ⟨stan_map_map_fst L, np_unique_sorted_lt L, np_unique_length_eq_card L,
    stan_map_map_snd L, ?_, ?_, ?_, ?_, ?_, rfl⟩
  · intro x hx
    obtain ⟨i, hi, hg⟩ := List.mem_iff_getElem.mp (mem_np_unique.mpr hx)
    exact ⟨i + 1, hg ▸ stan_map_lookup_getElem L i hi,
      Nat.succ_le_succ (Nat.zero_le i), hi⟩
  · intro x n h
    obtain ⟨i, hi, hx, -⟩ := stan_map_lookup_eq_some_iff.mp h
    rw [← hx]
    exact mem_np_unique.mp (List.getElem_mem _)
  · intro x y n hx hy
    obtain ⟨i, hi, hxi, hni⟩ := stan_map_lookup_eq_some_iff.mp hx
    obtain ⟨j, hj, hyj, hnj⟩ := stan_map_lookup_eq_some_iff.mp hy
    have hij : i = j := by omega
    subst hij
    exact hxi.symm.trans hyj
  · intro n h1 h2
    have hi : n - 1 < (np_unique L).length := by omega
    refine ⟨(np_unique L)[n - 1], mem_np_unique.mp (List.getElem_mem _), ?_⟩
    have hl := stan_map_lookup_getElem L (n - 1) hi
    have hn : n - 1 + 1 = n := by omega
    rw [hl, hn]
  · intro M hM
    unfold stan_map
    rw [np_unique_eq_of_toFinset_eq hM]

/-- Claim C3: on a successful read_data call the record sequence is
exactly the subset of rows whose home-goal cell is not null, in original
relative order (pointwise the same teams and the coerced goal values),
and the ids attached to each record are values of the returned map. -/
theorem read_data_records_match_played_rows (table : List RawRow)
    (recs : List MatchRecord) (tm : List (String × Nat))
    (h : read_data table = .ok recs tm) :
    recs.length = (playedRows table).length
  ∧ (∀ i : Nat,
        recs[i]?.map MatchRecord.home_team
          = ((playedRows table)[i]?).map RawRow.home_team
      ∧ recs[i]?.map MatchRecord.away_team
          = ((playedRows table)[i]?).map RawRow.away_team
      ∧ ((playedRows table)[i]?).map (fun r => coerceGoal r.home_goals)
          = recs[i]?.map (fun q => some q.home_goals)
      ∧ ((playedRows table)[i]?).map (fun r => coerceGoal r.away_goals)
          = recs[i]?.map (fun q => some q.away_goals))
  ∧ (∀ q ∈ recs, q.home_team_id ∈ tm.map Prod.snd
      ∧ q.away_team_id ∈ tm.map Prod.snd) := by
  obtain ⟨rfl, hrec⟩ := read_data_ok_iff.mp h
  have hlen := toRecords_some_length hrec
  refine ⟨hlen, ?_, ?_⟩
  · intro i
    by_cases hi : i < (playedRows table).length
    · have hri : i < recs.length := by rw [hlen]; exact hi
      have hg : toRecord (teamMapOf table) ((playedRows table)[i])
          = some recs[i] := toRecords_some_getElem hrec i hi
      have hq := toRecord_some_spec hg
      rw [List.getElem?_eq_getElem hri, List.getElem?_eq_getElem hi]
      simp only [Option.map_some']
      exact ⟨by rw [hq.1], by rw [hq.2.1], by rw [hq.2.2.1], by rw [hq.2.2.2.1]⟩
    · have hri : ¬ i < recs.length := by rw [hlen]; exact hi
      rw [List.getElem?_eq_none (le_of_not_lt hi),
        List.getElem?_eq_none (le_of_not_lt hri)]
      simp
  · intro q hq
    obtain ⟨i, hri, hgi⟩ := List.mem_iff_getElem.mp hq
    have hi : i < (playedRows table).length := by rw [← hlen]; exact hri
    have hg := toRecords_some_getElem hrec i hi
    have hgq : toRecord (teamMapOf table) ((playedRows table)[i]) = some q := by
      rw [← hgi]
      exact hg
    have hspec := toRecord_some_spec hgq
    have hrmem : (playedRows table)[i] ∈ playedRows table := List.getElem_mem _
    obtain ⟨nh, hnh⟩ := Option.isSome_iff_exists.mp
      (lookup_teamMapOf_isSome.mpr (played_home_team_mem hrmem))
    obtain ⟨na, hna⟩ := Option.isSome_iff_exists.mp
      (lookup_teamMapOf_isSome.mpr (played_away_team_mem hrmem))
    constructor
    · have he : q.home_team_id = nh := by
        rw [hspec.2.2.2.2.1, hnh]
        rfl
      rw [he]
      exact mapLookup_mem_values hnh
    · have he : q.away_team_id = na := by
        rw [hspec.2.2.2.2.2, hna]
        rfl
      rw [he]
      exact mapLookup_mem_values hna

/-- Witness for claim C3 at a concrete two-row table with one unplayed
row. -/
theorem read_data_records_match_played_rows_witness :
    ([⟨"A", "B", 2, 1, 1, 2⟩] : List MatchRecord).length
        = (playedRows [⟨"A", "B", .numeric 2, .numeric 1⟩,
                       ⟨"B", "A", .missing, .missing⟩]).length
  ∧ (∀ i : Nat,
        ([⟨"A", "B", 2, 1, 1, 2⟩] : List MatchRecord)[i]?.map MatchRecord.home_team
          = ((playedRows [⟨"A", "B", .numeric 2, .numeric 1⟩,
                          ⟨"B", "A", .missing, .missing⟩])[i]?).map RawRow.home_team
      ∧ ([⟨"A", "B", 2, 1, 1, 2⟩] : List MatchRecord)[i]?.map MatchRecord.away_team
          = ((playedRows [⟨"A", "B", .numeric 2, .numeric 1⟩,
                          ⟨"B", "A", .missing, .missing⟩])[i]?).map RawRow.away_team
      ∧ ((playedRows [⟨"A", "B", .numeric 2, .numeric 1⟩,
                      ⟨"B", "A", .missing, .missing⟩])[i]?).map
            (fun r => coerceGoal r.home_goals)
          = ([⟨"A", "B", 2, 1, 1, 2⟩] : List MatchRecord)[i]?.map
              (fun q => some q.home_goals)
      ∧ ((playedRows [⟨"A", "B", .numeric 2, .numeric 1⟩,
                      ⟨"B", "A", .missing, .missing⟩])[i]?).map
            (fun r => coerceGoal r.away_goals)
          = ([⟨"A", "B", 2, 1, 1, 2⟩] : List MatchRecord)[i]?.map
              (fun q => some q.away_goals))
  ∧ (∀ q ∈ ([⟨"A", "B", 2, 1, 1, 2⟩] : List MatchRecord),
        q.home_team_id ∈ ([("A", 1), ("B", 2)] : List (String × Nat)).map Prod.snd
      ∧ q.away_team_id ∈ ([("A", 1), ("B", 2)] : List (String × Nat)).map Prod.snd) :=
  read_data_records_match_played_rows
    [⟨"A", "B", .numeric 2, .numeric 1⟩, ⟨"B", "A", .missing, .missing⟩]
    [⟨"A", "B", 2, 1, 1, 2⟩] [("A", 1), ("B", 2)] (by decide)

/-- Claim C4: when some retained row has a goal cell that int() cannot
coerce, read_data reports the malformed-score error. -/
theorem read_data_rejects_uncoercible_goal (table : List RawRow)
    (h : ∃ r ∈ playedRows table,
        coerceGoal r.home_goals = none ∨ coerceGoal r.away_goals = none) :
    read_data table = .error .malformedScore := by
  apply read_data_error_of_bad_row
  obtain ⟨r, hr, hc⟩ := h
  exact ⟨r, hr, toRecord_eq_none_iff.mpr hc⟩

/-- Witness for claim C4: a played row whose away-goal cell holds
non-numeric text. -/
theorem read_data_rejects_uncoercible_goal_witness :
    (∃ r ∈ playedRows [⟨"A", "B", .numeric 2, .text "x"⟩],
        coerceGoal r.home_goals = none ∨ coerceGoal r.away_goals = none)
  ∧ read_data [⟨"A", "B", .numeric 2, .text "x"⟩] = .error .malformedScore :=
  ⟨by decide, read_data_rejects_uncoercible_goal _ (by decide)⟩

/-- Claim C9: a row with a present home-goal cell but a null away-goal
cell survives the filter (which tests the home side only) and then makes
read_data fail at the coercion step, so it raises an error instead of
being silently excluded. -/
theorem missing_away_goal_raises (table : List RawRow) (r : RawRow)
    (hmem : r ∈ table) (hhome : r.home_goals.isnull = false)
    (haway : r.away_goals = RawCell.missing) :
    r ∈ playedRows table ∧ read_data table = .error .malformedScore := by
  have hp : r ∈ playedRows table :=
    List.mem_filter.mpr ⟨hmem, by rw [hhome]; rfl⟩
  refine ⟨hp, read_data_error_of_bad_row ⟨r, hp, ?_⟩⟩
  apply toRecord_eq_none_iff.mpr
  right
  rw [haway]
  rfl

/-- Witness for claim C9 at a one-row table whose away-goal cell is
null. -/
theorem missing_away_goal_raises_witness :
    (⟨"A", "B", .numeric 2, .missing⟩ : RawRow)
        ∈ [(⟨"A", "B", .numeric 2, .missing⟩ : RawRow)]
  ∧ (RawRow.home_goals ⟨"A", "B", .numeric 2, .missing⟩).isnull = false
  ∧ RawRow.away_goals ⟨"A", "B", .numeric 2, .missing⟩ = RawCell.missing
  ∧ ((⟨"A", "B", .numeric 2, .missing⟩ : RawRow)
        ∈ playedRows [⟨"A", "B", .numeric 2, .missing⟩]
      ∧ read_data [⟨"A", "B", .numeric 2, .missing⟩] = .error .malformedScore) :=
  ⟨by decide, by decide, by decide,
    missing_away_goal_raises _ _ (by decide) (by decide) (by decide)⟩

/-- Claim C5: with caching on and a fixed model name, the first call
against a cold cache compiles once and stores once, at the location
derived from the model name alone, and every later call in the sequence
performs a load only, with zero compiles. -/
theorem cold_cache_compiles_once (name : String) (a k : Nat) (hk : 1 ≤ k) :
    ∃ rest, buildTrace name (.ok a) k .absent =
      { result := .ok a, compiles := 1, loads := 1, stores := 1,
        path := some (cache_file name), cache := .stored a } :: rest
  ∧ (∀ e ∈ rest, e.compiles = 0 ∧ e.loads = 1 ∧ e.stores = 0
      ∧ e.result = .ok a ∧ e.path = some (cache_file name))
  ∧ ((buildTrace name (.ok a) k .absent).map FitEffects.compiles).sum = 1
  ∧ ((buildTrace name (.ok a) k .absent).map FitEffects.stores).sum = 1 := by
  obtain ⟨j, rfl⟩ : ∃ j, k = j + 1 := ⟨k - 1, by omega⟩
  have hstep : buildTrace name (.ok a) (j + 1) .absent =
      { result := .ok a, compiles := 1, loads := 1, stores := 1,
        path := some (cache_file name), cache := .stored a }
        :: List.replicate j (warmEffect name a) := by
    rw [← buildTrace_warm name a j]
    rfl
  refine ⟨List.replicate j (warmEffect name a), hstep, ?_, ?_, ?_⟩
  · intro e he
    have hse := List.eq_of_mem_replicate he
    subst hse
    exact ⟨rfl, rfl, rfl, rfl, rfl⟩
  · rw [hstep]
    simp [warmEffect, List.map_replicate, List.sum_replicate]
  · rw [hstep]
    simp [warmEffect, List.map_replicate, List.sum_replicate]

/-- Witness for claim C5: two calls on the name m with artifact 7. -/
theorem cold_cache_compiles_once_witness :
    ∃ rest, buildTrace "m" (.ok 7) 2 .absent =
      { result := .ok 7, compiles := 1, loads := 1, stores := 1,
        path := some (cache_file "m"), cache := .stored 7 } :: rest
  ∧ (∀ e ∈ rest, e.compiles = 0 ∧ e.loads = 1 ∧ e.stores = 0
      ∧ e.result = .ok 7 ∧ e.path = some (cache_file "m"))
  ∧ ((buildTrace "m" (.ok 7) 2 .absent).map FitEffects.compiles).sum = 1
  ∧ ((buildTrace "m" (.ok 7) 2 .absent).map FitEffects.stores).sum = 1 :=
  cold_cache_compiles_once "m" 7 2 (by decide)

/-- Claim C6: a cache read failure that is not the not-found condition
propagates as the cache-corruption error, with no recompilation and the
cache location untouched. -/
theorem corrupt_cache_read_propagates (name : String) (co : CompileOutcome) :
    fit_model_build true name .corrupt co =
      { result := .cacheCorruption, compiles := 0, loads := 1, stores := 0,
        path := some (cache_file name), cache := .corrupt } := rfl

/-- Claim C7: a compilation failure against a cold cache propagates as a
compilation error, and the cache location stays empty: the failed build
is never persisted. -/
theorem failed_compile_leaves_no_artifact (name : String) (e : Nat) :
    fit_model_build true name .absent (.fail e) =
      { result := .compileErr e, compiles := 1, loads := 1, stores := 0,
        path := some (cache_file name), cache := .absent } := rfl

/-- Claim C8: when the draw-array width matches the encoding, every
relabelled column carries a label of the original label set, and the
column count equals the number of distinct teams in the encoding. -/
theorem reindexed_columns_are_team_labels (L : List String) (w : Nat)
    (hw : w = (stan_map L).length) :
    (reindexColumns (stan_map L) w).length = (stan_map L).length
  ∧ ∀ c ∈ reindexColumns (stan_map L) w,
      ∃ s, c = some s ∧ s ∈ (stan_map L).map Prod.fst ∧ s ∈ L := by
  subst hw
  constructor
  · simp [reindexColumns]
  · intro c hc
    rw [reindexColumns_stan_map] at hc
    obtain ⟨s, hs, rfl⟩ := List.mem_map.mp hc
    exact ⟨s, rfl, by rw [stan_map_map_fst]; exact hs, mem_np_unique.mp hs⟩

/-- Witness for claim C8 at the two-team encoding of B and A. -/
theorem reindexed_columns_are_team_labels_witness :
    (reindexColumns (stan_map ["B", "A"]) 2).length = (stan_map ["B", "A"]).length
  ∧ ∀ c ∈ reindexColumns (stan_map ["B", "A"]) 2,
      ∃ s, c = some s ∧ s ∈ (stan_map ["B", "A"]).map Prod.fst ∧ s ∈ ["B", "A"] :=
  reindexed_columns_are_team_labels ["B", "A"] 2 (by decide)

/-- Claim C10: reindexing relabels the column at zero-based position i
with the unique team whose identifier is i plus one, so the columns come
out in lexicographic label order, the assignment order of the encoder. -/
theorem reindexed_columns_follow_sorted_ids (L : List String) :
    reindexColumns (stan_map L) (stan_map L).length = (np_unique L).map some
  ∧ (np_unique L).Sorted (· < ·)
  ∧ ∀ i, ∀ hi : i < (np_unique L).length,
      mapLookup ((np_unique L)[i]) (stan_map L) = some (i + 1)
    ∧ ∀ x, mapLookup x (stan_map L) = some (i + 1) → x = (np_unique L)[i] := by
  refine ⟨reindexColumns_stan_map L, np_unique_sorted_lt L, ?_⟩
  intro i hi
  refine ⟨stan_map_lookup_getElem L i hi, ?_⟩
  intro x hx
  obtain ⟨j, hj, hxj, hnj⟩ := stan_map_lookup_eq_some_iff.mp hx
  have hji : j = i := by omega
  subst hji
  exact hxj.symm

end Soccerstan
